import Mathlib

/-!
Verification of the fund accounting engine of `simple-fund-tracking`.

The TypeScript sources are embedded shallowly:

* JavaScript numbers are modelled as exact rationals (`ℚ`);
* `Map<string, number>` is modelled as an association list (`JMap`) with
  JS `Map` semantics: `set` updates an existing key in place (preserving
  insertion order) and appends a fresh key at the end; `get` returns the
  value of the (unique) matching key;
* `Record<string, PriceData>` is modelled as `String → Option PriceData`;
* optional fields become `Option`; JS string truthiness (`if (s)` is false
  for the empty string) is modelled explicitly where the source relies on it.
-/

/-- Price data entry, from `src/lib/types/portfolio.ts` (`PriceData`). -/
structure PriceData where
  price : ℚ
  change24h : Option ℚ := none
  marketCap : Option ℚ := none
  fdv : Option ℚ := none
  deriving Repr, DecidableEq

/-- A price lookup table, modelling `Record<string, PriceData>`. -/
abbrev Prices := String → Option PriceData

/-- `currentPrices[key]?.price || 0` from the TypeScript sources. -/
def priceOr0 (currentPrices : Prices) (key : String) : ℚ :=
  match currentPrices key with
  | none => 0
  | some pd => pd.price

/-- Special calculation modes, from `src/lib/types/portfolio.ts`. -/
inductive SpecialCalculationType where
  | ETH_AMOUNT
  | BTC_AMOUNT
  | REGULAR
  deriving Repr, DecidableEq

/-- Token metadata, from `src/lib/types/portfolio.ts` (`TokenMetadata`).
The category is the literal string of the TypeScript union type. -/
structure TokenMetadata where
  id : String
  symbol : String
  name : String
  category : String
  specialCalculation : Option SpecialCalculationType := none
  deriving Repr, DecidableEq

/-- Transaction types, from `src/lib/types/portfolio.ts`. -/
inductive TransactionType where
  | DEPOSIT
  | WITHDRAW
  | BUY
  | SELL
  deriving Repr, DecidableEq

/-- A ledger transaction, from `src/lib/types/portfolio.ts` (`Transaction`). -/
structure Transaction where
  id : String
  date : String
  type : TransactionType
  tokenSymbol : Option String := none
  amount : ℚ
  priceAtTransaction : Option ℚ := none
  quotaValueAtTransaction : Option ℚ := none
  usdValue : ℚ
  deriving Repr, DecidableEq

/-- JS truthiness of `tx.tokenSymbol`: the sources guard BUY/SELL effects
with `if (tx.tokenSymbol)`, which is false both for a missing symbol and
for the empty string. -/
def Transaction.symTruthy (tx : Transaction) : Option String :=
  match tx.tokenSymbol with
  | none => none
  | some s => if s = "" then none else some s

/-- `Map<string, number>` as an insertion-ordered association list. -/
abbrev JMap := List (String × ℚ)

/-- `m.get(k)` on a JS `Map`. -/
def mget : JMap → String → Option ℚ
  | [], _ => none
  | (k', v') :: rest, k => if k' = k then some v' else mget rest k

/-- `m.get(k) || 0`, the lookup-with-default used throughout the sources
(`0 || 0 = 0`, so the default also applies to a stored zero). -/
def mgetD (m : JMap) (k : String) : ℚ :=
  (mget m k).getD 0

/-- `m.set(k, v)` on a JS `Map`: update in place when the key exists
(keeping insertion order), append otherwise. -/
def mset : JMap → String → ℚ → JMap
  | [], k, v => [(k, v)]
  | (k', v') :: rest, k, v =>
    if k' = k then (k, v) :: rest else (k', v') :: mset rest k v

/-- Fund state, from `src/lib/types/portfolio.ts` (`FundState`). -/
structure FundState where
  totalShares : ℚ
  quotaValue : ℚ
  cashBalance : ℚ
  holdings : JMap
  deriving Repr, DecidableEq

/-- `filterTransactionsByDate` from `src/lib/utils/fund-calculations.ts`.
`if (!upToDate)` is true for an absent cutoff and for the empty string. -/
def filterTransactionsByDate (transactions : List Transaction)
    (upToDate : Option String) : List Transaction :=
  match upToDate with
  | none => transactions
  | some d =>
    if d = "" then transactions
    else transactions.filter (fun tx => decide (tx.date ≤ d))

/-- One iteration of the `for` loop of `processTransactions`
(`src/lib/utils/fund-calculations.ts`), acting on the mutable state
`(totalShares, cashBalance, holdings)`. -/
def processStep (initialQuotaValue : ℚ) (st : ℚ × ℚ × JMap)
    (tx : Transaction) : ℚ × ℚ × JMap :=
  let totalShares := st.1
  let cashBalance := st.2.1
  let holdings := st.2.2
  let quotaValue := tx.quotaValueAtTransaction.getD initialQuotaValue
  match tx.type with
  | .DEPOSIT =>
    (totalShares + tx.usdValue / quotaValue, cashBalance + tx.usdValue, holdings)
  | .WITHDRAW =>
    (totalShares - tx.usdValue / quotaValue, cashBalance - tx.usdValue, holdings)
  | .BUY =>
    match tx.symTruthy with
    | some sym =>
      (totalShares, cashBalance - tx.usdValue,
        mset holdings sym (mgetD holdings sym + tx.amount))
    | none => (totalShares, cashBalance, holdings)
  | .SELL =>
    match tx.symTruthy with
    | some sym =>
      (totalShares, cashBalance + tx.usdValue,
        mset holdings sym (mgetD holdings sym - tx.amount))
    | none => (totalShares, cashBalance, holdings)

/-- `processTransactions` from `src/lib/utils/fund-calculations.ts`. -/
def processTransactions (transactions : List Transaction)
    (upToDate : Option String) (initialQuotaValue : ℚ) : FundState :=
  let filteredTransactions := filterTransactionsByDate transactions upToDate
  let final := filteredTransactions.foldl (processStep initialQuotaValue) (0, 0, [])
  { totalShares := final.1
    quotaValue := initialQuotaValue
    cashBalance := final.2.1
    holdings := final.2.2 }

/-- `calculateQuotaValue` from `src/lib/utils/fund-calculations.ts`. -/
def calculateQuotaValue (portfolioValue totalShares initialQuotaValue : ℚ) : ℚ :=
  if totalShares = 0 then initialQuotaValue
  else portfolioValue / totalShares

/-- `calculateQuotaPerformance` from `src/lib/utils/fund-calculations.ts`. -/
def calculateQuotaPerformance (currentQuotaValue initialQuotaValue : ℚ) : ℚ :=
  (currentQuotaValue - initialQuotaValue) / initialQuotaValue * 100

/-- One iteration of the `for` loop of `calculateCostBasis`
(`src/lib/utils/fund-calculations.ts`), acting on `(costBasis, holdings)`. -/
def costBasisStep (st : JMap × JMap) (tx : Transaction) : JMap × JMap :=
  let costBasis := st.1
  let holdings := st.2
  match tx.type, tx.symTruthy with
  | .BUY, some sym =>
    (mset costBasis sym (mgetD costBasis sym + tx.usdValue),
      mset holdings sym (mgetD holdings sym + tx.amount))
  | .SELL, some sym =>
    let currentAmount := mgetD holdings sym
    if currentAmount ≤ 0 then (costBasis, holdings)
    else
      let currentCost := mgetD costBasis sym
      let averageCost := currentCost / currentAmount
      let amountSold := min tx.amount currentAmount
      let costReduction := averageCost * amountSold
      (mset costBasis sym (max 0 (currentCost - costReduction)),
        mset holdings sym (currentAmount - amountSold))
  | _, _ => (costBasis, holdings)

/-- `calculateCostBasis` from `src/lib/utils/fund-calculations.ts`. -/
def calculateCostBasis (transactions : List Transaction)
    (upToDate : Option String) : JMap :=
  ((filterTransactionsByDate transactions upToDate).foldl
    costBasisStep ([], [])).1

/-- `calculatePortfolioValue` from `src/lib/utils/fund-calculations.ts`:
a fold of the `holdings.forEach` loop, starting from the cash balance. -/
def calculatePortfolioValue (fundState : FundState)
    (currentPrices : Prices) (tokens : List TokenMetadata) : ℚ :=
  fundState.holdings.foldl
    (fun totalValue entry =>
      match tokens.find? (fun t => t.symbol == entry.1) with
      | none => totalValue
      | some token =>
        match token.specialCalculation with
        | some .ETH_AMOUNT => totalValue + entry.2 * priceOr0 currentPrices "ethereum"
        | some .BTC_AMOUNT => totalValue + entry.2 * priceOr0 currentPrices "bitcoin"
        | _ => totalValue + entry.2 * priceOr0 currentPrices token.id)
    fundState.cashBalance

/-- `getTokenAmount` from `src/lib/utils/fund-calculations.ts`. -/
def getTokenAmount (token : TokenMetadata) (holdings : JMap) : ℚ :=
  mgetD holdings token.symbol

/-- Performance result, from `src/lib/types/portfolio.ts`. -/
structure PerformanceResult where
  currentValue : ℚ
  baselineValue : ℚ
  performance : ℚ
  isPositive : Bool
  deriving Repr, DecidableEq

/-- `calculateCurrentValue` from `src/lib/utils/calculations.ts`:
`case 'REGULAR'` falls through to the default branch. -/
def calculateCurrentValue (token : TokenMetadata) (amount : ℚ)
    (currentPrices : Prices) : ℚ :=
  match token.specialCalculation with
  | some .ETH_AMOUNT => amount * priceOr0 currentPrices "ethereum"
  | some .BTC_AMOUNT => amount * priceOr0 currentPrices "bitcoin"
  | _ => amount * priceOr0 currentPrices token.id

/-- `calculatePerformance` from `src/lib/utils/calculations.ts`. -/
def calculatePerformance (currentValue costBasis : ℚ) : PerformanceResult :=
  if costBasis = 0 then
    { currentValue := currentValue
      baselineValue := costBasis
      performance := 0
      isPositive := true }
  else
    let performance := (currentValue - costBasis) / costBasis * 100
    { currentValue := currentValue
      baselineValue := costBasis
      performance := performance
      isPositive := decide (0 ≤ performance) }

/-- Portfolio item, from `src/lib/types/portfolio.ts` (`PortfolioItem`). -/
structure PortfolioItem where
  token : TokenMetadata
  amount : ℚ
  currentPrice : ℚ
  currentValue : ℚ
  percentage : ℚ
  performance : ℚ
  costBasis : ℚ
  change24h : Option ℚ
  marketCap : Option ℚ
  fdv : Option ℚ
  deriving Repr, DecidableEq

/-- `items.reduce((sum, item) => sum + item.currentValue, 0)`, the total
used by `calculatePercentages` and the portfolio summary. -/
def sumCurrentValue (items : List PortfolioItem) : ℚ :=
  items.foldl (fun sum item => sum + item.currentValue) 0

/-- `calculatePercentages` from `src/lib/utils/calculations.ts`. -/
def calculatePercentages (items : List PortfolioItem) : List PortfolioItem :=
  let totalValue := sumCurrentValue items
  items.map (fun item =>
    { item with
      percentage := if 0 < totalValue then item.currentValue / totalValue * 100 else 0 })

/-- `getCurrentPrice` from `src/lib/utils/calculations.ts`. -/
def getCurrentPrice (tokenId : String) (currentPrices : Prices) : ℚ :=
  priceOr0 currentPrices tokenId

/-- `get24hChange` from `src/lib/utils/calculations.ts`
(`currentPrices[tokenId]?.change24h`). -/
def get24hChange (tokenId : String) (currentPrices : Prices) : Option ℚ :=
  (currentPrices tokenId).bind (fun pd => pd.change24h)

/-- `createPortfolioItem` from `src/lib/utils/calculations.ts`. -/
def createPortfolioItem (token : TokenMetadata) (amount costBasis : ℚ)
    (currentPrices : Prices) : PortfolioItem :=
  let currentPrice := getCurrentPrice token.id currentPrices
  let currentValue := calculateCurrentValue token amount currentPrices
  let performance := calculatePerformance currentValue costBasis
  let change24h := get24hChange token.id currentPrices
  let priceData := currentPrices token.id
  { token := token
    amount := amount
    currentPrice := currentPrice
    currentValue := currentValue
    percentage := 0
    performance := performance.performance
    costBasis := costBasis
    change24h := change24h
    marketCap := priceData.bind (fun pd => pd.marketCap)
    fdv := priceData.bind (fun pd => pd.fdv) }

/-- `items.reduce((sum, item) => sum + item.costBasis, 0)`. -/
def sumCostBasis (items : List PortfolioItem) : ℚ :=
  items.foldl (fun sum item => sum + item.costBasis) 0

/-- `items.reduce((sum, item) => sum + item.amount, 0)`. -/
def sumAmount (items : List PortfolioItem) : ℚ :=
  items.foldl (fun sum item => sum + item.amount) 0

/-- The `if (xItems.length > 0)` blocks of `aggregateBitcoinEthereumCategories`
(`src/lib/utils/calculations.ts`): build the single merged row for a
non-empty Btc/Eth group, using the first item as template. -/
def aggregateGroup (sym name : String) (sc : SpecialCalculationType)
    (groupItems : List PortfolioItem) : List PortfolioItem :=
  match groupItems with
  | [] => []
  | template :: _ =>
    let totalValue := sumCurrentValue groupItems
    let totalCostBasis := sumCostBasis groupItems
    let perf := calculatePerformance totalValue totalCostBasis
    let totalAmount := sumAmount groupItems
    [{ token :=
        { template.token with
          symbol := sym
          name := name
          specialCalculation := some sc }
       amount := totalAmount
       currentPrice := template.currentPrice
       currentValue := totalValue
       percentage := 0
       performance := perf.performance
       costBasis := totalCostBasis
       change24h := template.change24h
       marketCap := template.marketCap
       fdv := template.fdv }]

/-- `aggregateBitcoinEthereumCategories` from `src/lib/utils/calculations.ts`:
partition by category, merge the Btc and Eth groups into single rows,
append the untouched other-category items, recompute percentages. -/
def aggregateBitcoinEthereumCategories (items : List PortfolioItem) :
    List PortfolioItem :=
  let btcItems := items.filter (fun item => item.token.category = "Btc")
  let ethItems := items.filter (fun item =>
    item.token.category ≠ "Btc" ∧ item.token.category = "Eth")
  let otherItems := items.filter (fun item =>
    item.token.category ≠ "Btc" ∧ item.token.category ≠ "Eth")
  calculatePercentages
    (aggregateGroup "BTC" "Bitcoin (Aggregated)" .BTC_AMOUNT btcItems ++
      aggregateGroup "ETH" "Ethereum (Aggregated)" .ETH_AMOUNT ethItems ++
      otherItems)

/-- The item-construction step of `buildPortfolioFromPrices`
(`src/contexts/PortfolioDateContext.tsx`, lines 266–275): keep the tokens
whose derived holding amount is `> 0` and build one `PortfolioItem` each. -/
def buildPortfolioItems (tokens : List TokenMetadata) (fundState : FundState)
    (costBasisMap : JMap) (prices : Prices) : List PortfolioItem :=
  (tokens.filter (fun token => decide (0 < getTokenAmount token fundState.holdings))).map
    (fun token =>
      createPortfolioItem token (getTokenAmount token fundState.holdings)
        (mgetD costBasisMap token.symbol) prices)

/-- The summary total of `buildPortfolioFromPrices`
(`src/contexts/PortfolioDateContext.tsx`, line 279): the sum of the item
current values, with no cash term. -/
def buildPortfolioTotalValue (tokens : List TokenMetadata) (fundState : FundState)
    (costBasisMap : JMap) (prices : Prices) : ℚ :=
  sumCurrentValue
    (calculatePercentages (buildPortfolioItems tokens fundState costBasisMap prices))

/-! ### Association-list map lemmas -/

theorem mget_mset (m : JMap) (k k' : String) (v : ℚ) :
    mget (mset m k v) k' = if k' = k then some v else mget m k' := by
  induction m with
  | nil =>
    by_cases h : k' = k
    · simp [mset, mget, h]
    · simp [mset, mget, h, Ne.symm h]
  | cons hd tl ih =>
    obtain ⟨k₀, v₀⟩ := hd
    by_cases h₀ : k₀ = k
    · subst h₀
      by_cases h : k' = k₀
      · simp [mset, mget, h]
      · simp [mset, mget, h, Ne.symm h]
    · simp only [mset, if_neg h₀, mget, ih]
      by_cases h : k' = k <;> by_cases h' : k₀ = k' <;> simp_all

theorem mgetD_mset (m : JMap) (k k' : String) (v : ℚ) :
    mgetD (mset m k v) k' = if k' = k then v else mgetD m k' := by
  by_cases h : k' = k <;> simp [mgetD, mget_mset, h]

theorem mem_mset {p : String × ℚ} {m : JMap} {k : String} {v : ℚ}
    (hp : p ∈ mset m k v) : p = (k, v) ∨ p ∈ m := by
  induction m with
  | nil => simpa [mset] using hp
  | cons hd tl ih =>
    obtain ⟨k₀, v₀⟩ := hd
    by_cases h₀ : k₀ = k
    · subst h₀
      rcases (by simpa [mset] using hp : p = (k₀, v) ∨ p ∈ tl) with h | h
      · exact Or.inl h
      · exact Or.inr (List.mem_cons_of_mem _ h)
    · rcases (by simpa [mset, h₀] using hp : p = (k₀, v₀) ∨ p ∈ mset tl k v) with h | h
      · exact Or.inr (by simp [h])
      · rcases ih h with h' | h'
        · exact Or.inl h'
        · exact Or.inr (List.mem_cons_of_mem _ h')

theorem mgetD_nonneg (m : JMap) (k : String) (hm : ∀ p ∈ m, 0 ≤ p.2) :
    0 ≤ mgetD m k := by
  induction m with
  | nil => simp [mgetD, mget]
  | cons hd tl ih =>
    obtain ⟨k₀, v₀⟩ := hd
    by_cases h : k₀ = k
    · simpa [mgetD, mget, h] using hm (k₀, v₀) (by simp)
    · have htl : 0 ≤ mgetD tl k :=
        ih (fun p hp => hm p (List.mem_cons_of_mem _ hp))
      simpa [mgetD, mget, h] using htl

/-! ### Fold-to-sum lemmas for the JS `reduce` accumulators -/

theorem foldl_add_map (f : PortfolioItem → ℚ) (items : List PortfolioItem) (a : ℚ) :
    items.foldl (fun sum item => sum + f item) a = a + (items.map f).sum := by
  induction items generalizing a with
  | nil => simp
  | cons hd tl ih => simp [ih, add_assoc]

theorem sumCurrentValue_eq (items : List PortfolioItem) :
    sumCurrentValue items = (items.map (fun item => item.currentValue)).sum := by
  simpa using foldl_add_map (fun item => item.currentValue) items 0

theorem sumCostBasis_eq (items : List PortfolioItem) :
    sumCostBasis items = (items.map (fun item => item.costBasis)).sum := by
  simpa using foldl_add_map (fun item => item.costBasis) items 0

theorem sumAmount_eq (items : List PortfolioItem) :
    sumAmount items = (items.map (fun item => item.amount)).sum := by
  simpa using foldl_add_map (fun item => item.amount) items 0

/-! ### Spec-side model of the ledger replay (claim wording)

`replaySpec` restates the replay rules in the vocabulary of the
specification: the running holdings are an abstract total map
`String → ℚ` instead of a JS `Map`. The refinement theorems compare
`processTransactions` against it. -/

/-- Spec-side replay state: `totalShares`, `cashBalance`, and holdings as a
total map (absent symbol ↦ 0). -/
structure ReplaySpecState where
  totalShares : ℚ
  cashBalance : ℚ
  holdings : String → ℚ

/-- One replay step as the specification words it: DEPOSIT adds
`usdValue / q` shares and `usdValue` cash; WITHDRAW subtracts both; BUY
with a token symbol moves cash into `holdings[symbol]`; SELL the reverse. -/
def replaySpecStep (initialQuotaValue : ℚ) (s : ReplaySpecState)
    (tx : Transaction) : ReplaySpecState :=
  let q := tx.quotaValueAtTransaction.getD initialQuotaValue
  match tx.type with
  | .DEPOSIT =>
    { s with
      totalShares := s.totalShares + tx.usdValue / q
      cashBalance := s.cashBalance + tx.usdValue }
  | .WITHDRAW =>
    { s with
      totalShares := s.totalShares - tx.usdValue / q
      cashBalance := s.cashBalance - tx.usdValue }
  | .BUY =>
    match tx.symTruthy with
    | some sym =>
      { s with
        cashBalance := s.cashBalance - tx.usdValue
        holdings := fun k => if k = sym then s.holdings k + tx.amount else s.holdings k }
    | none => s
  | .SELL =>
    match tx.symTruthy with
    | some sym =>
      { s with
        cashBalance := s.cashBalance + tx.usdValue
        holdings := fun k => if k = sym then s.holdings k - tx.amount else s.holdings k }
    | none => s

/-- The replay as the specification words it: filter by the cutoff, then
fold from `totalShares = 0`, `cashBalance = 0`, empty holdings. -/
def replaySpec (transactions : List Transaction) (upToDate : Option String)
    (initialQuotaValue : ℚ) : ReplaySpecState :=
  (filterTransactionsByDate transactions upToDate).foldl
    (replaySpecStep initialQuotaValue)
    { totalShares := 0, cashBalance := 0, holdings := fun _ => 0 }

theorem processStep_agrees (q : ℚ) (st : ℚ × ℚ × JMap) (s : ReplaySpecState)
    (h1 : st.1 = s.totalShares) (h2 : st.2.1 = s.cashBalance)
    (h3 : ∀ k, mgetD st.2.2 k = s.holdings k) (tx : Transaction) :
    (processStep q st tx).1 = (replaySpecStep q s tx).totalShares ∧
    (processStep q st tx).2.1 = (replaySpecStep q s tx).cashBalance ∧
    ∀ k, mgetD (processStep q st tx).2.2 k = (replaySpecStep q s tx).holdings k := by
  obtain ⟨a, b, m⟩ := st
  cases htype : tx.type <;> cases hsym : tx.symTruthy <;>
    refine ⟨?_, ?_, fun k => ?_⟩ <;>
    simp_all [processStep, replaySpecStep, mgetD_mset]

theorem foldl_processStep_agrees (q : ℚ) (txs : List Transaction)
    (st : ℚ × ℚ × JMap) (s : ReplaySpecState)
    (h1 : st.1 = s.totalShares) (h2 : st.2.1 = s.cashBalance)
    (h3 : ∀ k, mgetD st.2.2 k = s.holdings k) :
    (txs.foldl (processStep q) st).1 =
      (txs.foldl (replaySpecStep q) s).totalShares ∧
    (txs.foldl (processStep q) st).2.1 =
      (txs.foldl (replaySpecStep q) s).cashBalance ∧
    ∀ k, mgetD (txs.foldl (processStep q) st).2.2 k =
      (txs.foldl (replaySpecStep q) s).holdings k := by
  induction txs generalizing st s with
  | nil => exact ⟨h1, h2, h3⟩
  | cons tx rest ih =>
    have h := processStep_agrees q st s h1 h2 h3 tx
    exact ih _ _ h.1 h.2.1 h.2.2

/-- Sample ledger entries used by the concrete witness theorems. -/
def txDeposit : Transaction :=
  { id := "t1", date := "2025-01-01", type := .DEPOSIT, amount := 100, usdValue := 100 }

def txBuyTok : Transaction :=
  { id := "t2", date := "2025-01-02", type := .BUY, tokenSymbol := some "TOK",
    amount := 2, usdValue := 50 }

def txDepositLate : Transaction :=
  { id := "t3", date := "2025-01-03", type := .DEPOSIT, amount := 10, usdValue := 10 }

def txSellTok : Transaction :=
  { id := "t4", date := "2025-01-02", type := .SELL, tokenSymbol := some "TOK",
    amount := 1, usdValue := 150 }

def txBuyNoSym : Transaction :=
  { id := "t5", date := "2025-01-02", type := .BUY, amount := 2, usdValue := 50 }

/-- C1: `processTransactions` filters the ledger to `date ≤ cutoff`
(inclusively; no cutoff keeps the whole list) and then folds the filtered
list, from zero shares, zero cash and empty holdings, with the
DEPOSIT/WITHDRAW/BUY/SELL rules of the specification (`replaySpec`). -/
theorem processTransactions_replays_filtered_ledger
    (transactions : List Transaction) (upToDate : Option String)
    (initialQuotaValue : ℚ) :
    filterTransactionsByDate transactions none = transactions ∧
    (∀ d : String, d ≠ "" →
      filterTransactionsByDate transactions (some d) =
        transactions.filter (fun tx => decide (tx.date ≤ d))) ∧
    (∀ d : String, d ≠ "" → ∀ tx ∈ transactions, tx.date = d →
      tx ∈ filterTransactionsByDate transactions (some d)) ∧
    (processTransactions transactions upToDate initialQuotaValue).totalShares =
      (replaySpec transactions upToDate initialQuotaValue).totalShares ∧
    (processTransactions transactions upToDate initialQuotaValue).cashBalance =
      (replaySpec transactions upToDate initialQuotaValue).cashBalance ∧
    ∀ sym,
      mgetD (processTransactions transactions upToDate initialQuotaValue).holdings sym =
        (replaySpec transactions upToDate initialQuotaValue).holdings sym := by
  have h := foldl_processStep_agrees initialQuotaValue
    (filterTransactionsByDate transactions upToDate) (0, 0, ([] : JMap))
    { totalShares := 0, cashBalance := 0, holdings := fun _ => 0 }
    rfl rfl (fun k => by simp [mgetD, mget])
  refine ⟨rfl, ?_, ?_, h.1, h.2.1, h.2.2⟩
  · intro d hd
    simp [filterTransactionsByDate, hd]
  · intro d hd tx htx hdate
    simp [filterTransactionsByDate, hd, List.mem_filter, htx, hdate]

/-- Concrete instance of C1: cutoff `2025-01-02` keeps the two early
transactions (the one dated exactly at the cutoff included), and the
replayed holdings agree with the spec-side fold. -/
theorem processTransactions_replays_filtered_ledger_witness :
    filterTransactionsByDate [txDeposit, txBuyTok, txDepositLate] (some "2025-01-02") =
      [txDeposit, txBuyTok, txDepositLate].filter
        (fun tx => decide (tx.date ≤ "2025-01-02")) ∧
    txBuyTok ∈ filterTransactionsByDate [txDeposit, txBuyTok, txDepositLate]
      (some "2025-01-02") ∧
    mgetD (processTransactions [txDeposit, txBuyTok, txDepositLate]
        (some "2025-01-02") 1).holdings "TOK" =
      (replaySpec [txDeposit, txBuyTok, txDepositLate]
        (some "2025-01-02") 1).holdings "TOK" := by
  have h := processTransactions_replays_filtered_ledger
    [txDeposit, txBuyTok, txDepositLate] (some "2025-01-02") 1
  exact ⟨h.2.1 "2025-01-02" (by decide),
    h.2.2.1 "2025-01-02" (by decide) txBuyTok (by simp) (by decide),
    h.2.2.2.2.2 "TOK"⟩

/-! ### Spec-side model of the cost-basis tracker (claim wording) -/

/-- Spec-side cost-basis state: per-symbol running cost and running amount
as total maps (absent symbol ↦ 0). -/
structure CostBasisSpecState where
  cost : String → ℚ
  amount : String → ℚ

/-- One cost-basis step as the specification words it: BUY accumulates
cost and amount; SELL is a no-op on a non-positive running amount and
otherwise depletes the cost at the average rate, clamped at zero;
DEPOSIT and WITHDRAW change nothing. -/
def costBasisSpecStep (s : CostBasisSpecState) (tx : Transaction) :
    CostBasisSpecState :=
  match tx.type, tx.symTruthy with
  | .BUY, some sym =>
    { cost := fun k => if k = sym then s.cost k + tx.usdValue else s.cost k
      amount := fun k => if k = sym then s.amount k + tx.amount else s.amount k }
  | .SELL, some sym =>
    if s.amount sym ≤ 0 then s
    else
      let averageCost := s.cost sym / s.amount sym
      let soldQty := min tx.amount (s.amount sym)
      { cost := fun k =>
          if k = sym then max 0 (s.cost sym - averageCost * soldQty) else s.cost k
        amount := fun k =>
          if k = sym then s.amount sym - soldQty else s.amount k }
  | _, _ => s

/-- The cost-basis tracker as the specification words it. -/
def costBasisSpec (transactions : List Transaction)
    (upToDate : Option String) : CostBasisSpecState :=
  (filterTransactionsByDate transactions upToDate).foldl costBasisSpecStep
    { cost := fun _ => 0, amount := fun _ => 0 }

theorem costBasisStep_agrees (st : JMap × JMap) (s : CostBasisSpecState)
    (hc : ∀ k, mgetD st.1 k = s.cost k) (ha : ∀ k, mgetD st.2 k = s.amount k)
    (tx : Transaction) :
    (∀ k, mgetD (costBasisStep st tx).1 k = (costBasisSpecStep s tx).cost k) ∧
    ∀ k, mgetD (costBasisStep st tx).2 k = (costBasisSpecStep s tx).amount k := by
  obtain ⟨cb, hold⟩ := st
  cases htype : tx.type <;> cases hsym : tx.symTruthy <;>
    refine ⟨fun k => ?_, fun k => ?_⟩ <;>
    simp_all [costBasisStep, costBasisSpecStep, mgetD_mset] <;>
    split_ifs <;> simp_all [mgetD_mset]

theorem foldl_costBasisStep_agrees (txs : List Transaction)
    (st : JMap × JMap) (s : CostBasisSpecState)
    (hc : ∀ k, mgetD st.1 k = s.cost k) (ha : ∀ k, mgetD st.2 k = s.amount k) :
    (∀ k, mgetD (txs.foldl costBasisStep st).1 k =
      (txs.foldl costBasisSpecStep s).cost k) ∧
    ∀ k, mgetD (txs.foldl costBasisStep st).2 k =
      (txs.foldl costBasisSpecStep s).amount k := by
  induction txs generalizing st s with
  | nil => exact ⟨hc, ha⟩
  | cons tx rest ih =>
    have h := costBasisStep_agrees st s hc ha tx
    exact ih _ _ h.1 h.2

/-- C2: `calculateCostBasis` filters the ledger by the same inclusive
date rule and folds it with per-symbol running cost and amount exactly as
the specification describes (`costBasisSpec`): BUY accumulates, SELL
depletes at average cost clamped at zero (a no-op on non-positive running
amount), DEPOSIT and WITHDRAW change nothing, and only the final cost map
is returned. -/
theorem calculateCostBasis_matches_spec (transactions : List Transaction)
    (upToDate : Option String) :
    (∀ sym, mgetD (calculateCostBasis transactions upToDate) sym =
      (costBasisSpec transactions upToDate).cost sym) ∧
    ∀ st : JMap × JMap, ∀ tx : Transaction,
      (tx.type = .DEPOSIT ∨ tx.type = .WITHDRAW) → costBasisStep st tx = st := by
  have h := foldl_costBasisStep_agrees
    (filterTransactionsByDate transactions upToDate) (([] : JMap), ([] : JMap))
    { cost := fun _ => 0, amount := fun _ => 0 }
    (fun k => by simp [mgetD, mget]) (fun k => by simp [mgetD, mget])
  refine ⟨h.1, ?_⟩
  rintro st tx (ht | ht) <;> cases hsym : tx.symTruthy <;>
    simp [costBasisStep, ht, hsym]

/-- Concrete instance of C2 (the spec's averaging example): BUY 2 TOK for
$200 then SELL 1 TOK leaves a cost basis of $100 on both sides of the
refinement. -/
theorem calculateCostBasis_matches_spec_witness :
    mgetD (calculateCostBasis
      [{ id := "b", date := "2025-01-01", type := .BUY, tokenSymbol := some "TOK",
         amount := 2, usdValue := 200 },
       { id := "s", date := "2025-01-02", type := .SELL, tokenSymbol := some "TOK",
         amount := 1, usdValue := 150 }] none) "TOK" =
      (costBasisSpec
        [{ id := "b", date := "2025-01-01", type := .BUY, tokenSymbol := some "TOK",
           amount := 2, usdValue := 200 },
         { id := "s", date := "2025-01-02", type := .SELL, tokenSymbol := some "TOK",
           amount := 1, usdValue := 150 }] none).cost "TOK" ∧
    costBasisStep (([] : JMap), ([] : JMap)) txDeposit = (([] : JMap), ([] : JMap)) ∧
    mgetD (calculateCostBasis
      [{ id := "b", date := "2025-01-01", type := .BUY, tokenSymbol := some "TOK",
         amount := 2, usdValue := 200 },
       { id := "s", date := "2025-01-02", type := .SELL, tokenSymbol := some "TOK",
         amount := 1, usdValue := 150 }] none) "TOK" = 100 := by
  refine ⟨(calculateCostBasis_matches_spec _ none).1 "TOK",
    (calculateCostBasis_matches_spec [] none).2 (([] : JMap), ([] : JMap))
      txDeposit (Or.inl rfl), ?_⟩
  norm_num [calculateCostBasis, filterTransactionsByDate, costBasisStep,
    Transaction.symTruthy, mgetD, mget, mset, min_def, max_def]

theorem mem_of_mem_filterTransactionsByDate {tx : Transaction}
    {transactions : List Transaction} {upToDate : Option String}
    (h : tx ∈ filterTransactionsByDate transactions upToDate) :
    tx ∈ transactions := by
  cases upToDate with
  | none => exact h
  | some d =>
    by_cases hd : d = ""
    · simpa [filterTransactionsByDate, hd] using h
    · simp only [filterTransactionsByDate, if_neg hd] at h
      exact List.mem_of_mem_filter h

theorem costBasisStep_preserves_nonneg (st : JMap × JMap) (tx : Transaction)
    (h : ∀ p ∈ st.1, 0 ≤ p.2) (htx : tx.type = .BUY → 0 ≤ tx.usdValue) :
    ∀ p ∈ (costBasisStep st tx).1, 0 ≤ p.2 := by
  obtain ⟨cb, hold⟩ := st
  intro p hp
  cases httype : tx.type <;> cases hsym : tx.symTruthy <;>
    simp only [costBasisStep, httype, hsym] at hp <;>
    first
      | exact h p hp
      | skip
  · rcases mem_mset hp with rfl | hmem
    · exact add_nonneg (mgetD_nonneg cb _ h) (htx httype)
    · exact h _ hmem
  · split_ifs at hp with hle
    · exact h p hp
    · rcases mem_mset hp with rfl | hmem
      · exact le_max_left 0 _
      · exact h _ hmem

theorem foldl_costBasisStep_nonneg (txs : List Transaction) (st : JMap × JMap)
    (h : ∀ p ∈ st.1, 0 ≤ p.2)
    (hbuy : ∀ tx ∈ txs, tx.type = .BUY → 0 ≤ tx.usdValue) :
    ∀ p ∈ (txs.foldl costBasisStep st).1, 0 ≤ p.2 := by
  induction txs generalizing st with
  | nil => exact h
  | cons tx rest ih =>
    exact ih _ (costBasisStep_preserves_nonneg st tx h (hbuy tx (by simp)))
      (fun tx' htx' => hbuy tx' (List.mem_cons_of_mem _ htx'))

/-- Counterexample to C3 as stated: over truly arbitrary ledgers the
cost-basis map can go negative — a single BUY recorded with a negative
`usdValue` puts `-5` in the map. -/
theorem costBasis_nonneg_counterexample :
    mgetD (calculateCostBasis
      [{ id := "t", date := "2025-01-01", type := .BUY, tokenSymbol := some "TOK",
         amount := 1, usdValue := -5 }] none) "TOK" < 0 := by
  norm_num [calculateCostBasis, filterTransactionsByDate, costBasisStep,
    Transaction.symTruthy, mgetD, mget, mset]

/-- C3 (amended): for every ledger whose BUY transactions carry a
non-negative `usdValue` — including inconsistent histories where SELL
amounts exceed the previously bought amounts — every value in the map
returned by `calculateCostBasis` is ≥ 0. -/
theorem costBasis_values_nonneg (transactions : List Transaction)
    (upToDate : Option String)
    (hbuy : ∀ tx ∈ transactions, tx.type = .BUY → 0 ≤ tx.usdValue) :
    (∀ p ∈ calculateCostBasis transactions upToDate, 0 ≤ p.2) ∧
    ∀ sym, 0 ≤ mgetD (calculateCostBasis transactions upToDate) sym := by
  have hmem := foldl_costBasisStep_nonneg
    (filterTransactionsByDate transactions upToDate) (([] : JMap), ([] : JMap))
    (by intro p hp; simp at hp)
    (fun tx htx => hbuy tx (mem_of_mem_filterTransactionsByDate htx))
  exact ⟨hmem, fun sym => mgetD_nonneg _ sym hmem⟩

def txBuyOne : Transaction :=
  { id := "b1", date := "2025-01-01", type := .BUY, tokenSymbol := some "TOK",
    amount := 1, usdValue := 100 }

def txSellBig : Transaction :=
  { id := "s1", date := "2025-01-02", type := .SELL, tokenSymbol := some "TOK",
    amount := 5, usdValue := 500 }

/-- Concrete instance of C3 (amended): a SELL of five tokens against a
one-token holding leaves a non-negative (indeed zero) cost basis. -/
theorem costBasis_values_nonneg_witness :
    (0 ≤ mgetD (calculateCostBasis [txBuyOne, txSellBig] none) "TOK") ∧
    mgetD (calculateCostBasis [txBuyOne, txSellBig] none) "TOK" = 0 := by
  refine ⟨(costBasis_values_nonneg [txBuyOne, txSellBig] none ?_).2 "TOK", ?_⟩
  · intro tx htx hty
    simp only [List.mem_cons, List.not_mem_nil, or_false] at htx
    rcases htx with rfl | rfl
    · norm_num [txBuyOne]
    · exact absurd hty (by decide)
  · norm_num [calculateCostBasis, filterTransactionsByDate, costBasisStep,
      Transaction.symTruthy, txBuyOne, txSellBig, mgetD, mget, mset,
      min_def, max_def]

/-- C4: `calculateQuotaValue` is a total function: zero outstanding shares
fall back to the initial quota value (no division is attempted), and any
non-zero share count yields `portfolioValue / totalShares`. -/
theorem calculateQuotaValue_total (portfolioValue totalShares initialQuotaValue : ℚ) :
    (totalShares = 0 →
      calculateQuotaValue portfolioValue totalShares initialQuotaValue =
        initialQuotaValue) ∧
    (totalShares ≠ 0 →
      calculateQuotaValue portfolioValue totalShares initialQuotaValue =
        portfolioValue / totalShares) := by
  constructor <;> intro h <;> simp [calculateQuotaValue, h]

/-- Concrete instance of C4: both branches evaluated. -/
theorem calculateQuotaValue_total_witness :
    calculateQuotaValue 500 0 1 = 1 ∧ calculateQuotaValue 500 250 1 = 2 := by
  refine ⟨(calculateQuotaValue_total 500 0 1).1 rfl, ?_⟩
  rw [(calculateQuotaValue_total 500 250 1).2 (by norm_num)]
  norm_num

/-- C5: `calculateCurrentValue` dispatches on `specialCalculation`:
`ETH_AMOUNT` values at the `ethereum` price, `BTC_AMOUNT` at the
`bitcoin` price (ignoring the token's own pricing id in both special
cases — any two price maps agreeing on the special key give the same
value), `REGULAR`/unset at the token's own id; a missing price entry
prices at 0 and never faults. -/
theorem calculateCurrentValue_dispatch (token : TokenMetadata) (amount : ℚ)
    (currentPrices : Prices) :
    (token.specialCalculation = some .ETH_AMOUNT →
      calculateCurrentValue token amount currentPrices =
        amount * priceOr0 currentPrices "ethereum") ∧
    (token.specialCalculation = some .BTC_AMOUNT →
      calculateCurrentValue token amount currentPrices =
        amount * priceOr0 currentPrices "bitcoin") ∧
    (token.specialCalculation = some .REGULAR ∨ token.specialCalculation = none →
      calculateCurrentValue token amount currentPrices =
        amount * priceOr0 currentPrices token.id) ∧
    (∀ prices' : Prices, token.specialCalculation = some .ETH_AMOUNT →
      prices' "ethereum" = currentPrices "ethereum" →
      calculateCurrentValue token amount prices' =
        calculateCurrentValue token amount currentPrices) ∧
    (∀ prices' : Prices, token.specialCalculation = some .BTC_AMOUNT →
      prices' "bitcoin" = currentPrices "bitcoin" →
      calculateCurrentValue token amount prices' =
        calculateCurrentValue token amount currentPrices) ∧
    ((token.specialCalculation = some .REGULAR ∨ token.specialCalculation = none) →
      currentPrices token.id = none →
      calculateCurrentValue token amount currentPrices = 0) := by
  refine ⟨fun h => ?_, fun h => ?_, fun h => ?_, fun p' h hp => ?_,
    fun p' h hp => ?_, fun h hid => ?_⟩ <;>
    rcases h' : token.specialCalculation with _ | sc <;>
    (try cases sc) <;>
    simp_all [calculateCurrentValue, priceOr0]

/-- Concrete instance of C5 (the spec's example): an `ETH_AMOUNT` token
with holding 2 under `{ethereum ↦ 3000}` values at exactly 6000 although
its own pricing id is priced at 1; a `REGULAR` token with no price entry
values at 0. -/
theorem calculateCurrentValue_dispatch_witness :
    calculateCurrentValue
      { id := "wrapped-eth", symbol := "ETHW", name := "EthW", category := "Eth",
        specialCalculation := some .ETH_AMOUNT } 2
      (fun k => if k = "ethereum" then some { price := 3000 }
        else if k = "wrapped-eth" then some { price := 1 } else none) = 6000 ∧
    calculateCurrentValue
      { id := "obscure", symbol := "OBS", name := "Obscure", category := "Micro" } 7
      (fun _ => none) = 0 := by
  constructor
  · rw [(calculateCurrentValue_dispatch _ 2 _).1 rfl]
    norm_num [priceOr0]
  · exact (calculateCurrentValue_dispatch _ 7 _).2.2.2.2.2 (Or.inr rfl) rfl

theorem processStep_symbolless (q : ℚ) (st : ℚ × ℚ × JMap) (tx : Transaction)
    (hty : tx.type = .BUY ∨ tx.type = .SELL) (hsym : tx.symTruthy = none) :
    processStep q st tx = st := by
  obtain ⟨a, b, m⟩ := st
  rcases hty with h | h <;> simp [processStep, h, hsym]

/-- C9: a BUY or SELL recorded without a token symbol is skipped whole:
the replayed fund state over `l1 ++ [tx] ++ l2` equals the state over
`l1 ++ l2`, and the fold continues over the remaining transactions. -/
theorem processTransactions_skips_symbolless (l1 l2 : List Transaction)
    (tx : Transaction) (upToDate : Option String) (initialQuotaValue : ℚ)
    (hty : tx.type = .BUY ∨ tx.type = .SELL) (hsym : tx.tokenSymbol = none) :
    processTransactions (l1 ++ tx :: l2) upToDate initialQuotaValue =
      processTransactions (l1 ++ l2) upToDate initialQuotaValue := by
  have hsym' : tx.symTruthy = none := by simp [Transaction.symTruthy, hsym]
  have hstep : ∀ st, processStep initialQuotaValue st tx = st :=
    fun st => processStep_symbolless initialQuotaValue st tx hty hsym'
  cases upToDate with
  | none =>
    simp [processTransactions, filterTransactionsByDate, List.foldl_append, hstep]
  | some d =>
    by_cases hd : d = ""
    · simp [processTransactions, filterTransactionsByDate, hd,
        List.foldl_append, hstep]
    · by_cases hkeep : tx.date ≤ d
      · have h2 : List.filter (fun tx' => decide (tx'.date ≤ d)) (tx :: l2) =
            tx :: List.filter (fun tx' => decide (tx'.date ≤ d)) l2 :=
          List.filter_cons_of_pos (by simpa using hkeep)
        simp only [processTransactions, filterTransactionsByDate, if_neg hd,
          List.filter_append, h2, List.foldl_append, List.foldl_cons, hstep]
      · have h2 : List.filter (fun tx' => decide (tx'.date ≤ d)) (tx :: l2) =
            List.filter (fun tx' => decide (tx'.date ≤ d)) l2 :=
          List.filter_cons_of_neg (by simpa using hkeep)
        simp only [processTransactions, filterTransactionsByDate, if_neg hd,
          List.filter_append, h2, List.foldl_append]

/-- Concrete instance of C9: a symbol-less BUY between a deposit and
nothing else leaves the fund state exactly as if it were absent. -/
theorem processTransactions_skips_symbolless_witness :
    processTransactions [txDeposit, txBuyNoSym] none 1 =
      processTransactions [txDeposit] none 1 := by
  simpa using
    processTransactions_skips_symbolless [txDeposit] [] txBuyNoSym none 1
      (Or.inl rfl) rfl

/-- The per-entry valuation of `calculatePortfolioValue` as the
specification words it: dispatch on the matched registry token's special
calculation, with missing prices as 0, and 0 for a holdings symbol that
matches no registry token. -/
def holdingEntryValue (currentPrices : Prices) (tokens : List TokenMetadata)
    (entry : String × ℚ) : ℚ :=
  match tokens.find? (fun t => t.symbol == entry.1) with
  | none => 0
  | some token =>
    match token.specialCalculation with
    | some .ETH_AMOUNT => entry.2 * priceOr0 currentPrices "ethereum"
    | some .BTC_AMOUNT => entry.2 * priceOr0 currentPrices "bitcoin"
    | _ => entry.2 * priceOr0 currentPrices token.id

theorem calculatePortfolioValue_foldl (holdings : JMap)
    (currentPrices : Prices) (tokens : List TokenMetadata) (acc : ℚ) :
    holdings.foldl
      (fun totalValue entry =>
        match tokens.find? (fun t => t.symbol == entry.1) with
        | none => totalValue
        | some token =>
          match token.specialCalculation with
          | some .ETH_AMOUNT => totalValue + entry.2 * priceOr0 currentPrices "ethereum"
          | some .BTC_AMOUNT => totalValue + entry.2 * priceOr0 currentPrices "bitcoin"
          | _ => totalValue + entry.2 * priceOr0 currentPrices token.id)
      acc =
    acc + (holdings.map (holdingEntryValue currentPrices tokens)).sum := by
  induction holdings generalizing acc with
  | nil => simp
  | cons entry rest ih =>
    rw [List.foldl_cons, ih, List.map_cons, List.sum_cons]
    rcases hfind : tokens.find? (fun t => t.symbol == entry.1) with _ | token
    · simp [holdingEntryValue, hfind, add_assoc]
    · rcases hsc : token.specialCalculation with _ | sc
      · simp [holdingEntryValue, hfind, hsc, add_assoc]
      · cases sc <;> simp [holdingEntryValue, hfind, hsc, add_assoc]

/-- C10: `calculatePortfolioValue` is the cash balance plus the sum of
per-entry holding values (spec dispatch, missing prices as 0); an entry
whose symbol matches no registry token contributes zero and is skipped;
the per-item summary total (`buildPortfolioTotalValue`) instead sums item
current values with no cash term. -/
theorem calculatePortfolioValue_cash_inclusive (fundState : FundState)
    (currentPrices : Prices) (tokens : List TokenMetadata) :
    calculatePortfolioValue fundState currentPrices tokens =
      fundState.cashBalance +
        (fundState.holdings.map (holdingEntryValue currentPrices tokens)).sum ∧
    (∀ (h1 h2 : JMap) (sym : String) (amount : ℚ),
      tokens.find? (fun t => t.symbol == sym) = none →
      calculatePortfolioValue { fundState with holdings := h1 ++ (sym, amount) :: h2 }
          currentPrices tokens =
        calculatePortfolioValue { fundState with holdings := h1 ++ h2 }
          currentPrices tokens) ∧
    ∀ (costBasisMap : JMap),
      buildPortfolioTotalValue tokens fundState costBasisMap currentPrices =
        sumCurrentValue (buildPortfolioItems tokens fundState costBasisMap currentPrices) := by
  refine ⟨calculatePortfolioValue_foldl _ _ _ _, fun h1 h2 sym amount hfind => ?_, fun cb => ?_⟩
  · show (h1 ++ (sym, amount) :: h2).foldl _ _ = (h1 ++ h2).foldl _ _
    rw [calculatePortfolioValue_foldl, calculatePortfolioValue_foldl]
    simp [holdingEntryValue, hfind]
  · show sumCurrentValue (calculatePercentages _) = _
    rw [sumCurrentValue_eq, sumCurrentValue_eq]
    simp [calculatePercentages, List.map_map, sumCurrentValue_eq, Function.comp_def]

def btcToken : TokenMetadata :=
  { id := "bitcoin", symbol := "BTC", name := "Bitcoin", category := "Btc" }

/-- Concrete instance of C10: cash 40 plus a two-coin BTC holding at
price 30 totals 100, and an extra holdings entry under a symbol absent
from the registry changes nothing. -/
theorem calculatePortfolioValue_cash_inclusive_witness :
    calculatePortfolioValue
        { totalShares := 100, quotaValue := 1, cashBalance := 40,
          holdings := [("BTC", 2)] }
        (fun k => if k = "bitcoin" then some { price := 30 } else none)
        [btcToken] = 100 ∧
    calculatePortfolioValue
        { totalShares := 100, quotaValue := 1, cashBalance := 40,
          holdings := [("BTC", 2)] ++ ("ZZZ", 5) :: [] }
        (fun k => if k = "bitcoin" then some { price := 30 } else none)
        [btcToken] =
      calculatePortfolioValue
        { totalShares := 100, quotaValue := 1, cashBalance := 40,
          holdings := [("BTC", 2)] ++ [] }
        (fun k => if k = "bitcoin" then some { price := 30 } else none)
        [btcToken] := by
  constructor
  · rw [(calculatePortfolioValue_cash_inclusive
      { totalShares := 100, quotaValue := 1, cashBalance := 40,
        holdings := [("BTC", 2)] }
      (fun k => if k = "bitcoin" then some { price := 30 } else none) [btcToken]).1]
    norm_num [holdingEntryValue, btcToken, priceOr0, List.find?]
  · exact (calculatePortfolioValue_cash_inclusive
      { totalShares := 100, quotaValue := 1, cashBalance := 40,
        holdings := [("BTC", 2)] }
      (fun k => if k = "bitcoin" then some { price := 30 } else none)
      [btcToken]).2.1 [("BTC", 2)] [] "ZZZ" 5 (by simp [btcToken, List.find?])

/-- C7: `calculatePercentages` rewrites only the `percentage` field, to
`currentValue / totalValue * 100` when the total is positive and to 0
otherwise; over a non-empty list with positive total the output
percentages sum to exactly 100 in rational arithmetic. -/
theorem calculatePercentages_sum_100 (items : List PortfolioItem) :
    ((calculatePercentages items).map (fun item => { item with percentage := 0 }) =
      items.map (fun item => { item with percentage := 0 })) ∧
    ((calculatePercentages items).map (fun item => item.percentage) =
      items.map (fun item =>
        if 0 < sumCurrentValue items then
          item.currentValue / sumCurrentValue items * 100 else 0)) ∧
    (items ≠ [] → 0 < sumCurrentValue items →
      ((calculatePercentages items).map (fun item => item.percentage)).sum = 100) := by
  refine ⟨?_, ?_, fun hne hpos => ?_⟩
  · simp [calculatePercentages, List.map_map, Function.comp_def]
  · simp [calculatePercentages, List.map_map, Function.comp_def]
  · have hmap : (calculatePercentages items).map (fun item => item.percentage) =
        items.map (fun item => item.currentValue / sumCurrentValue items * 100) := by
      simp [calculatePercentages, List.map_map, Function.comp_def, hpos]
    rw [hmap,
      show (fun item : PortfolioItem =>
          item.currentValue / sumCurrentValue items * 100) =
        (fun item : PortfolioItem =>
          item.currentValue * (100 / sumCurrentValue items)) from by
        funext it; ring]
    rw [List.sum_map_mul_right, ← sumCurrentValue_eq]
    field_simp

def sampleItem (sym : String) (value : ℚ) : PortfolioItem :=
  { token := { id := sym, symbol := sym, name := sym, category := "Micro" }
    amount := 1
    currentPrice := value
    currentValue := value
    percentage := 0
    performance := 0
    costBasis := 0
    change24h := none
    marketCap := none
    fdv := none }

/-- Concrete instance of C7: items valued 30 and 70 get percentages
summing to exactly 100. -/
theorem calculatePercentages_sum_100_witness :
    ((calculatePercentages [sampleItem "A" 30, sampleItem "B" 70]).map
      (fun item => item.percentage)).sum = 100 := by
  refine (calculatePercentages_sum_100 _).2.2 (by simp) ?_
  norm_num [sumCurrentValue, sampleItem]

theorem countP_filter_beq (tokens : List TokenMetadata) (t : TokenMetadata)
    (pos : TokenMetadata → Bool) :
    (tokens.filter pos).countP (fun t' => t' == t) =
      if pos t then tokens.count t else 0 := by
  induction tokens with
  | nil => simp
  | cons hd tl ih =>
    by_cases hp : pos hd <;> by_cases he : hd = t <;>
      simp_all [List.filter_cons, List.countP_cons, List.count_cons]

/-- Counterexample to C6 as stated: a token whose derived holding is the
non-zero amount `-1` gets no `PortfolioItem` at all — the builder keeps
only strictly positive holdings, not all non-zero ones. -/
theorem buildPortfolioItems_nonzero_counterexample :
    getTokenAmount
        { id := "tok", symbol := "TOK", name := "Tok", category := "Micro" }
        ([("TOK", -1)] : JMap) ≠ 0 ∧
    buildPortfolioItems
      [{ id := "tok", symbol := "TOK", name := "Tok", category := "Micro" }]
      { totalShares := 0, quotaValue := 1, cashBalance := 0,
        holdings := [("TOK", -1)] }
      [] (fun _ => none) = [] := by
  constructor
  · norm_num [getTokenAmount, mgetD, mget]
  · norm_num [buildPortfolioItems, getTokenAmount, mgetD, mget, List.filter]

/-- C6 (amended): the valuation step builds exactly one `PortfolioItem`
per registry token occurrence whose holding amount is strictly positive,
and none for tokens whose holding is zero or negative. -/
theorem buildPortfolioItems_positive_holdings (tokens : List TokenMetadata)
    (fundState : FundState) (costBasisMap : JMap) (prices : Prices) :
    (∀ item ∈ buildPortfolioItems tokens fundState costBasisMap prices,
      0 < getTokenAmount item.token fundState.holdings) ∧
    ∀ t : TokenMetadata,
      (buildPortfolioItems tokens fundState costBasisMap prices).countP
          (fun item => item.token == t) =
        if 0 < getTokenAmount t fundState.holdings then tokens.count t else 0 := by
  constructor
  · intro item hitem
    unfold buildPortfolioItems at hitem
    rcases List.mem_map.mp hitem with ⟨tok, htok, rfl⟩
    have hpos := List.of_mem_filter htok
    simpa [createPortfolioItem] using hpos
  · intro t
    unfold buildPortfolioItems
    rw [List.countP_map]
    rw [show ((fun item : PortfolioItem => item.token == t) ∘
        (fun token => createPortfolioItem token
          (getTokenAmount token fundState.holdings)
          (mgetD costBasisMap token.symbol) prices)) =
        fun tok => tok == t from rfl]
    rw [countP_filter_beq]
    simp

def posToken : TokenMetadata :=
  { id := "postoken", symbol := "POS", name := "Positive", category := "Micro" }

def zeroToken : TokenMetadata :=
  { id := "zerotoken", symbol := "ZER", name := "Zero", category := "Micro" }

/-- Concrete instance of C6 (amended): with holdings `POS ↦ 3, ZER ↦ 0`
the builder creates exactly one item for `POS` and none for `ZER`. -/
theorem buildPortfolioItems_positive_holdings_witness :
    (buildPortfolioItems [posToken, zeroToken]
        { totalShares := 0, quotaValue := 1, cashBalance := 0,
          holdings := [("POS", 3), ("ZER", 0)] }
        [] (fun _ => none)).countP (fun item => item.token == posToken) = 1 ∧
    (buildPortfolioItems [posToken, zeroToken]
        { totalShares := 0, quotaValue := 1, cashBalance := 0,
          holdings := [("POS", 3), ("ZER", 0)] }
        [] (fun _ => none)).countP (fun item => item.token == zeroToken) = 0 := by
  have h := (buildPortfolioItems_positive_holdings [posToken, zeroToken]
    { totalShares := 0, quotaValue := 1, cashBalance := 0,
      holdings := [("POS", 3), ("ZER", 0)] } [] (fun _ => none)).2
  constructor
  · rw [h posToken]
    norm_num [getTokenAmount, mgetD, mget, posToken, List.count_cons, zeroToken]
    decide
  · rw [h zeroToken]
    norm_num [getTokenAmount, mgetD, mget, zeroToken, posToken]
    decide

theorem map_currentValue_calculatePercentages (items : List PortfolioItem) :
    (calculatePercentages items).map (fun item => item.currentValue) =
      items.map (fun item => item.currentValue) := by
  simp [calculatePercentages, List.map_map, Function.comp_def]

theorem sumCurrentValue_calculatePercentages (items : List PortfolioItem) :
    sumCurrentValue (calculatePercentages items) = sumCurrentValue items := by
  rw [sumCurrentValue_eq, sumCurrentValue_eq, map_currentValue_calculatePercentages]

theorem sumCurrentValue_append (a b : List PortfolioItem) :
    sumCurrentValue (a ++ b) = sumCurrentValue a + sumCurrentValue b := by
  simp [sumCurrentValue_eq]

theorem sumCurrentValue_singleton (item : PortfolioItem) :
    sumCurrentValue [item] = item.currentValue := by
  simp [sumCurrentValue]

theorem aggregateGroup_cons (sym name : String) (sc : SpecialCalculationType)
    (template : PortfolioItem) (rest : List PortfolioItem) :
    ∃ row, aggregateGroup sym name sc (template :: rest) = [row] ∧
      row.token.symbol = sym ∧
      row.token.category = template.token.category ∧
      row.currentValue = sumCurrentValue (template :: rest) ∧
      row.costBasis = sumCostBasis (template :: rest) ∧
      row.amount = sumAmount (template :: rest) :=
  ⟨_, rfl, rfl, rfl, rfl, rfl, rfl⟩

theorem sumCurrentValue_aggregateGroup (sym name : String)
    (sc : SpecialCalculationType) (groupItems : List PortfolioItem) :
    sumCurrentValue (aggregateGroup sym name sc groupItems) =
      sumCurrentValue groupItems := by
  cases groupItems with
  | nil => rfl
  | cons template rest =>
    obtain ⟨row, hrow, _, _, hval, _, _⟩ := aggregateGroup_cons sym name sc template rest
    rw [hrow, sumCurrentValue_singleton, hval]

theorem sumCurrentValue_filter_three (items : List PortfolioItem) :
    sumCurrentValue items =
      sumCurrentValue (items.filter (fun it => it.token.category = "Btc")) +
      sumCurrentValue (items.filter (fun it =>
        it.token.category ≠ "Btc" ∧ it.token.category = "Eth")) +
      sumCurrentValue (items.filter (fun it =>
        it.token.category ≠ "Btc" ∧ it.token.category ≠ "Eth")) := by
  simp only [sumCurrentValue_eq]
  induction items with
  | nil => simp
  | cons hd tl ih =>
    by_cases h1 : hd.token.category = "Btc"
    · simp [List.filter_cons, h1, ih]
      ring
    · by_cases h2 : hd.token.category = "Eth"
      · simp [List.filter_cons, h1, h2, ih]
        ring
      · simp [List.filter_cons, h1, h2, ih]
        ring

theorem filter_eth_eq (items : List PortfolioItem) :
    items.filter (fun it =>
        it.token.category ≠ "Btc" ∧ it.token.category = "Eth") =
      items.filter (fun it => it.token.category = "Eth") := by
  apply List.filter_congr
  intro it _
  by_cases h : it.token.category = "Eth" <;> simp [h]

theorem filter_other_calculatePercentages (items : List PortfolioItem) :
    ((calculatePercentages items).filter (fun it =>
        it.token.category ≠ "Btc" ∧ it.token.category ≠ "Eth")).map
          (fun it => it.currentValue) =
      (items.filter (fun it =>
        it.token.category ≠ "Btc" ∧ it.token.category ≠ "Eth")).map
          (fun it => it.currentValue) := by
  simp only [calculatePercentages]
  rw [List.filter_map, List.map_map]
  simp [Function.comp_def]

theorem aggregate_output_eq (items : List PortfolioItem) :
    aggregateBitcoinEthereumCategories items =
      calculatePercentages
        (aggregateGroup "BTC" "Bitcoin (Aggregated)" .BTC_AMOUNT
            (items.filter (fun it => it.token.category = "Btc")) ++
          aggregateGroup "ETH" "Ethereum (Aggregated)" .ETH_AMOUNT
            (items.filter (fun it =>
              it.token.category ≠ "Btc" ∧ it.token.category = "Eth")) ++
          items.filter (fun it =>
            it.token.category ≠ "Btc" ∧ it.token.category ≠ "Eth")) := rfl

/-- C8: `aggregateBitcoinEthereumCategories` preserves the total current
value; when present, the merged BTC (resp. ETH) row carries the sums of
`currentValue`, `costBasis` and `amount` of the Btc- (resp. Eth-)
category inputs; all other-category items pass through with their
current values unchanged. -/
theorem aggregateBitcoinEthereum_preserves_total (items : List PortfolioItem) :
    sumCurrentValue (aggregateBitcoinEthereumCategories items) =
      sumCurrentValue items ∧
    (items.filter (fun it => it.token.category = "Btc") ≠ [] →
      ∃ row ∈ aggregateBitcoinEthereumCategories items,
        row.token.symbol = "BTC" ∧
        row.currentValue =
          sumCurrentValue (items.filter (fun it => it.token.category = "Btc")) ∧
        row.costBasis =
          sumCostBasis (items.filter (fun it => it.token.category = "Btc")) ∧
        row.amount =
          sumAmount (items.filter (fun it => it.token.category = "Btc"))) ∧
    (items.filter (fun it => it.token.category = "Eth") ≠ [] →
      ∃ row ∈ aggregateBitcoinEthereumCategories items,
        row.token.symbol = "ETH" ∧
        row.currentValue =
          sumCurrentValue (items.filter (fun it => it.token.category = "Eth")) ∧
        row.costBasis =
          sumCostBasis (items.filter (fun it => it.token.category = "Eth")) ∧
        row.amount =
          sumAmount (items.filter (fun it => it.token.category = "Eth"))) ∧
    ((aggregateBitcoinEthereumCategories items).filter (fun it =>
        it.token.category ≠ "Btc" ∧ it.token.category ≠ "Eth")).map
          (fun it => it.currentValue) =
      (items.filter (fun it =>
        it.token.category ≠ "Btc" ∧ it.token.category ≠ "Eth")).map
          (fun it => it.currentValue) := by
  have heth := filter_eth_eq items
  refine ⟨?_, ?_, ?_, ?_⟩
  · rw [aggregate_output_eq, sumCurrentValue_calculatePercentages,
      sumCurrentValue_append, sumCurrentValue_append,
      sumCurrentValue_aggregateGroup, sumCurrentValue_aggregateGroup,
      sumCurrentValue_filter_three items]
  · intro hne
    obtain ⟨template, rest, hbtc⟩ := List.exists_cons_of_ne_nil hne
    obtain ⟨row, hrow, hsym, _, hval, hcost, hamt⟩ :=
      aggregateGroup_cons "BTC" "Bitcoin (Aggregated)" .BTC_AMOUNT template rest
    rw [aggregate_output_eq, hbtc, hrow]
    simp only [calculatePercentages]
    refine ⟨_, List.mem_map_of_mem _
      (List.mem_append_left _ (List.mem_append_left _ (List.mem_cons_self row []))),
      ?_, ?_, ?_, ?_⟩
    · simpa using hsym
    · simpa using hval
    · simpa using hcost
    · simpa using hamt
  · intro hne
    rw [← heth] at hne
    obtain ⟨template, rest, hethc⟩ := List.exists_cons_of_ne_nil hne
    obtain ⟨row, hrow, hsym, _, hval, hcost, hamt⟩ :=
      aggregateGroup_cons "ETH" "Ethereum (Aggregated)" .ETH_AMOUNT template rest
    rw [aggregate_output_eq, ← heth, hethc, hrow]
    simp only [calculatePercentages]
    refine ⟨_, List.mem_map_of_mem _
      (List.mem_append_left _ (List.mem_append_right _ (List.mem_cons_self row []))),
      ?_, ?_, ?_, ?_⟩
    · simpa using hsym
    · simpa using hval
    · simpa using hcost
    · simpa using hamt
  · rw [aggregate_output_eq, filter_other_calculatePercentages]
    have hbtcnil :
        (aggregateGroup "BTC" "Bitcoin (Aggregated)" .BTC_AMOUNT
            (items.filter (fun it => it.token.category = "Btc"))).filter
          (fun it => it.token.category ≠ "Btc" ∧ it.token.category ≠ "Eth") = [] := by
      cases hb : items.filter (fun it => it.token.category = "Btc") with
      | nil => rfl
      | cons template rest =>
        obtain ⟨row, hrow, _, hcat, _, _, _⟩ :=
          aggregateGroup_cons "BTC" "Bitcoin (Aggregated)" .BTC_AMOUNT template rest
        have hmem : template ∈ items.filter (fun it => it.token.category = "Btc") := by
          rw [hb]; exact List.mem_cons_self template rest
        have htpl : template.token.category = "Btc" := by
          have h := List.of_mem_filter hmem
          simp only [decide_eq_true_eq] at h
          exact h
        rw [hrow]
        simp [List.filter_cons, hcat, htpl]
    have hethnil :
        (aggregateGroup "ETH" "Ethereum (Aggregated)" .ETH_AMOUNT
            (items.filter (fun it =>
              it.token.category ≠ "Btc" ∧ it.token.category = "Eth"))).filter
          (fun it => it.token.category ≠ "Btc" ∧ it.token.category ≠ "Eth") = [] := by
      cases hb : items.filter (fun it =>
          it.token.category ≠ "Btc" ∧ it.token.category = "Eth") with
      | nil => rfl
      | cons template rest =>
        obtain ⟨row, hrow, _, hcat, _, _, _⟩ :=
          aggregateGroup_cons "ETH" "Ethereum (Aggregated)" .ETH_AMOUNT template rest
        have hmem : template ∈ items.filter (fun it =>
            it.token.category ≠ "Btc" ∧ it.token.category = "Eth") := by
          rw [hb]; exact List.mem_cons_self template rest
        have htpl : template.token.category = "Eth" := by
          have h := List.of_mem_filter hmem
          simp only [decide_eq_true_eq] at h
          exact h.2
        rw [hrow]
        simp [List.filter_cons, hcat, htpl]
    rw [List.filter_append, List.filter_append, hbtcnil, hethnil,
      List.filter_filter]
    simp

def sampleItemCat (sym cat : String) (value cost amt : ℚ) : PortfolioItem :=
  { token := { id := sym, symbol := sym, name := sym, category := cat }
    amount := amt
    currentPrice := 0
    currentValue := value
    percentage := 0
    performance := 0
    costBasis := cost
    change24h := none
    marketCap := none
    fdv := none }

/-- Concrete instance of C8: one Btc-, one Eth- and one other-category
item; the aggregated output keeps the 100 total and carries a merged BTC
row with the summed fields. -/
theorem aggregateBitcoinEthereum_preserves_total_witness :
    sumCurrentValue (aggregateBitcoinEthereumCategories
      [sampleItemCat "WBTC" "Btc" 50 40 2,
       sampleItemCat "STETH" "Eth" 30 20 1,
       sampleItemCat "DOGE" "Gaming/Meme" 20 5 100]) =
      sumCurrentValue
        [sampleItemCat "WBTC" "Btc" 50 40 2,
         sampleItemCat "STETH" "Eth" 30 20 1,
         sampleItemCat "DOGE" "Gaming/Meme" 20 5 100] ∧
    ∃ row ∈ aggregateBitcoinEthereumCategories
      [sampleItemCat "WBTC" "Btc" 50 40 2,
       sampleItemCat "STETH" "Eth" 30 20 1,
       sampleItemCat "DOGE" "Gaming/Meme" 20 5 100],
      row.token.symbol = "BTC" ∧
      row.currentValue = sumCurrentValue
        ([sampleItemCat "WBTC" "Btc" 50 40 2,
          sampleItemCat "STETH" "Eth" 30 20 1,
          sampleItemCat "DOGE" "Gaming/Meme" 20 5 100].filter
            (fun it => it.token.category = "Btc")) ∧
      row.costBasis = sumCostBasis
        ([sampleItemCat "WBTC" "Btc" 50 40 2,
          sampleItemCat "STETH" "Eth" 30 20 1,
          sampleItemCat "DOGE" "Gaming/Meme" 20 5 100].filter
            (fun it => it.token.category = "Btc")) ∧
      row.amount = sumAmount
        ([sampleItemCat "WBTC" "Btc" 50 40 2,
          sampleItemCat "STETH" "Eth" 30 20 1,
          sampleItemCat "DOGE" "Gaming/Meme" 20 5 100].filter
            (fun it => it.token.category = "Btc")) := by
  refine ⟨(aggregateBitcoinEthereum_preserves_total _).1,
    (aggregateBitcoinEthereum_preserves_total _).2.1 ?_⟩
  simp [sampleItemCat, List.filter]
